import Mathlib

/-!
# Verification of `auth0-spa-js` `src/utils.ts`

A shallow embedding of the utility module of `auth0-spa-js` in Lean 4.
JavaScript strings are modelled as `List Char`; byte arrays as `List Nat`
with every element `< 256`; `undefined`/absent values as `Option`;
functions that can throw return `Option` or `Except`.

The embedding follows the TypeScript source function by function:
`getUniqueScopes`, `parseQueryResult`, `runIframe`, `runPopup`,
`createRandomString`, `urlEncodeB64` / `decodeB64` / `urlDecodeB64` /
`bufferToBase64UrlEncoded`, `switchFetch` / `fetchWithTimeout` / `getJSON`.
Browser built-ins used by the source (`btoa`, `atob`,
`decodeURIComponent`, `parseInt`) are modelled after their ECMAScript /
WHATWG specifications.
-/

/-- JavaScript strings, modelled as their list of Unicode scalar values.
(Lean `Char` is exactly a Unicode scalar value.) -/
abbrev JStr := List Char

/-- Convenience: view a Lean string literal as a `JStr`. -/
def jstr (s : String) : JStr := s.data

/-- The set of characters matched by the JavaScript regular-expression
class `\s` (ECMA-262 WhiteSpace ∪ LineTerminator), by code point. -/
def isJsWhitespace (c : Char) : Bool :=
  let n := c.toNat
  n = 0x20 || n = 0x09 || n = 0x0a || n = 0x0b || n = 0x0c || n = 0x0d ||
  n = 0xa0 || n = 0x1680 || (0x2000 ≤ n && n ≤ 0x200a) ||
  n = 0x2028 || n = 0x2029 || n = 0x202f || n = 0x205f || n = 0x3000 ||
  n = 0xfeff

/-- JavaScript `String.prototype.split` with a single-character separator:
splits at every occurrence, keeping empty segments (`''.split(c) = ['']`). -/
def splitOnChar (sep : Char) : JStr → List JStr
  | [] => [[]]
  | c :: rest =>
    let r := splitOnChar sep rest
    if c = sep then [] :: r
    else match r with
      | [] => [[c]]
      | seg :: segs => (c :: seg) :: segs

/-- JavaScript `Array.prototype.join` with a one-character separator. -/
def joinWith (sep : Char) : List JStr → JStr
  | [] => []
  | [s] => s
  | s :: rest => s ++ sep :: joinWith sep rest

/-- JavaScript `String.prototype.trim`: strip whitespace from both ends. -/
def jsTrim (s : JStr) : JStr :=
  ((s.dropWhile isJsWhitespace).reverse.dropWhile isJsWhitespace).reverse

/-- Helper for `dedupe`: drop every element already seen. -/
def dedupeAux {α : Type} [DecidableEq α] (seen : List α) : List α → List α
  | [] => []
  | x :: xs => if x ∈ seen then dedupeAux seen xs else x :: dedupeAux (x :: seen) xs

/-- `const dedupe = arr => arr.filter((x, i) => arr.indexOf(x) === i)`
(utils.ts line 16): keep exactly the first occurrence of each element. -/
def dedupe {α : Type} [DecidableEq α] (l : List α) : List α := dedupeAux [] l

/-- `getUniqueScopes` (utils.ts lines 22-25):
`scopes.filter(Boolean).join()` (drop empty strings, join with `','`),
replace every `\s` character with `','`, split on `','`, dedupe,
join with `' '`, trim. -/
def getUniqueScopes (scopes : List JStr) : JStr :=
  let scopeString := joinWith ',' (scopes.filter (fun s => s ≠ []))
  jsTrim (joinWith ' '
    (dedupe (splitOnChar ','
      (scopeString.map (fun c => if isJsWhitespace c then ',' else c)))))

/-- The space-separated tokens of a string, empty segments dropped. -/
def scopeTokens (s : JStr) : List JStr :=
  (splitOnChar ' ' s).filter (fun t => t ≠ [])

/-- The 66-character alphabet of `createRandomString` (utils.ts line 134). -/
def charset : JStr :=
  jstr "0123456789ABCDEFGHIJKLMNOPQRSTUVWXYZabcdefghijklmnopqrstuvwxyz-_~."

/-- `createRandomString` (utils.ts lines 132-141), parametrised by the 43
bytes obtained from `getCrypto().getRandomValues(new Uint8Array(43))`:
each byte `v` is mapped to `charset[v % charset.length]`. -/
def createRandomString (randomValues : List Nat) : JStr :=
  randomValues.map (fun v => charset.getD (v % charset.length) ' ')

/-- Value of a hexadecimal digit, accepting both cases (ECMA-262). -/
def hexVal (c : Char) : Option Nat :=
  if '0' ≤ c ∧ c ≤ '9' then some (c.toNat - '0'.toNat)
  else if 'a' ≤ c ∧ c ≤ 'f' then some (c.toNat - 'a'.toNat + 10)
  else if 'A' ≤ c ∧ c ≤ 'F' then some (c.toNat - 'A'.toNat + 10)
  else none

/-- Read one `%hh` escape from the front of a string, returning the byte
and the remaining characters. -/
def readEscape : JStr → Option (Nat × JStr)
  | '%' :: h1 :: h2 :: rest => do
    let v1 ← hexVal h1
    let v2 ← hexVal h2
    pure (v1 * 16 + v2, rest)
  | _ => none

/-- Is `b` a UTF-8 continuation byte (`0x80..0xBF`)? -/
def isCont (b : Nat) : Bool := 0x80 ≤ b && b ≤ 0xBF

/-- Validity check on the second byte of a 3-byte UTF-8 sequence
(rules out overlong encodings and surrogates). -/
def second3Ok (b1 b2 : Nat) : Bool :=
  if b1 = 0xE0 then 0xA0 ≤ b2 && b2 ≤ 0xBF
  else if b1 = 0xED then 0x80 ≤ b2 && b2 ≤ 0x9F
  else isCont b2

/-- Validity check on the second byte of a 4-byte UTF-8 sequence
(rules out overlong encodings and values above `0x10FFFF`). -/
def second4Ok (b1 b2 : Nat) : Bool :=
  if b1 = 0xF0 then 0x90 ≤ b2 && b2 ≤ 0xBF
  else if b1 = 0xF4 then 0x80 ≤ b2 && b2 ≤ 0x8F
  else isCont b2

/-- Decode the continuation of a 2-byte UTF-8 sequence with lead byte
`b1` from the escaped string `r1`. -/
def decodeCont2 (b1 : Nat) (r1 : JStr) : Option (Char × JStr) := do
  let (b2, r2) ← readEscape r1
  if isCont b2 then some (Char.ofNat ((b1 - 0xC0) * 64 + (b2 - 0x80)), r2)
  else none

/-- Decode the continuation of a 3-byte UTF-8 sequence with lead byte
`b1` from the escaped string `r1`. -/
def decodeCont3 (b1 : Nat) (r1 : JStr) : Option (Char × JStr) := do
  let (b2, r2) ← readEscape r1
  let (b3, r3) ← readEscape r2
  if second3Ok b1 b2 && isCont b3 then
    some (Char.ofNat ((b1 - 0xE0) * 4096 + (b2 - 0x80) * 64 + (b3 - 0x80)), r3)
  else none

/-- Decode the continuation of a 4-byte UTF-8 sequence with lead byte
`b1` from the escaped string `r1`. -/
def decodeCont4 (b1 : Nat) (r1 : JStr) : Option (Char × JStr) := do
  let (b2, r2) ← readEscape r1
  let (b3, r3) ← readEscape r2
  let (b4, r4) ← readEscape r3
  if second4Ok b1 b2 && isCont b3 && isCont b4 then
    some (Char.ofNat ((b1 - 0xF0) * 262144 + (b2 - 0x80) * 4096 +
      (b3 - 0x80) * 64 + (b4 - 0x80)), r4)
  else none

/-- Decode one percent-escaped UTF-8 unit from the front of the string,
per the ECMA-262 `Decode` abstract operation (strict UTF-8: overlong
encodings, surrogates and values above `0x10FFFF` are rejected). -/
def decodeEscapedUnit (s : JStr) : Option (Char × JStr) := do
  let (b1, r1) ← readEscape s
  if b1 < 0x80 then some (Char.ofNat b1, r1)
  else if 0xC2 ≤ b1 ∧ b1 ≤ 0xDF then decodeCont2 b1 r1
  else if 0xE0 ≤ b1 ∧ b1 ≤ 0xEF then decodeCont3 b1 r1
  else if 0xF0 ≤ b1 ∧ b1 ≤ 0xF4 then decodeCont4 b1 r1
  else none

/-- Recursion core of `decodeURIComponent`, structured on a fuel bound on
the number of characters still to consume (`decodeEscapedUnit` consumes at
least one character, so fuel equal to the length suffices). -/
def decodeURICompAux : Nat → JStr → Option JStr
  | _, [] => some []
  | 0, _ :: _ => none
  | fuel + 1, '%' :: rest =>
    match decodeEscapedUnit ('%' :: rest) with
    | some (c, r) => (fun t => c :: t) <$> decodeURICompAux fuel r
    | none => none
  | fuel + 1, c :: rest => (fun t => c :: t) <$> decodeURICompAux fuel rest

/-- ECMA-262 `decodeURIComponent`: a character other than `%` passes
through unchanged; a `%` must begin a valid escaped UTF-8 unit, otherwise
a `URIError` is thrown, modelled as `none`. -/
def decodeURIComponent (s : JStr) : Option JStr :=
  decodeURICompAux s.length s

/-- ECMA-262 `parseInt(string)` with no radix argument: skip leading
whitespace, read an optional sign, use radix 16 after a `0x`/`0X` prefix
(radix 10 otherwise), and parse the longest digit prefix; `none` models
the `NaN` result when no digit is present. -/
def jsParseInt (s : JStr) : Option Int :=
  let s1 := s.dropWhile isJsWhitespace
  let signAndRest : Int × JStr :=
    match s1 with
    | '-' :: rest => (-1, rest)
    | '+' :: rest => (1, rest)
    | _ => (1, s1)
  let radixAndRest : Nat × JStr :=
    match signAndRest.2 with
    | '0' :: 'x' :: rest => (16, rest)
    | '0' :: 'X' :: rest => (16, rest)
    | _ => (10, signAndRest.2)
  let dv : Char → Option Nat := fun c =>
    (hexVal c).bind (fun v => if v < radixAndRest.1 then some v else none)
  let digits := radixAndRest.2.takeWhile (fun c => (dv c).isSome)
  if digits = [] then none
  else some (signAndRest.1 *
    (digits.foldl (fun acc c => acc * radixAndRest.1 + ((dv c).getD 0)) 0 : Nat))

/-- A JavaScript object with string values, as its insertion-ordered list
of own properties. -/
abbrev JsObject := List (JStr × JStr)

/-- JavaScript property assignment `o[k] = v`: overwrite in place if the
key exists, append otherwise. -/
def objSet (o : JsObject) (k v : JStr) : JsObject :=
  if o.any (fun p => p.1 = k) then
    o.map (fun p => if p.1 = k then (k, v) else p)
  else o ++ [(k, v)]

/-- JavaScript property read `o[k]`: `none` models `undefined`. -/
def objGet (o : JsObject) (k : JStr) : Option JStr :=
  (o.find? (fun p => p.1 = k)).map (fun p => p.2)

/-- The result object of `parseQueryResult`: the parsed string fields
(the spread `...parsedQuery`) together with the numerically coerced
`expires_in` property, where `none` models `NaN`. -/
structure AuthenticationResult where
  fields : JsObject
  expires_in : Option Int
deriving DecidableEq, Repr

/-- `parseQueryResult` (utils.ts lines 27-44): cut the string at the first
`#` if any, split on `&`, split each pair on `=` (`val` is `undefined`,
i.e. the string `"undefined"` after coercion, when there is no `=`),
percent-decode each value (`none` models a thrown `URIError`), assign into
an object, and coerce `expires_in` with `parseInt`. -/
def parseQueryResult (queryString : JStr) : Option AuthenticationResult :=
  let qs := if queryString.contains '#'
    then queryString.takeWhile (fun c => c != '#') else queryString
  let queryParams := splitOnChar '&' qs
  let step := fun (acc : Option JsObject) (qp : JStr) =>
    acc.bind (fun o =>
      let parts := splitOnChar '=' qp
      let key := parts.getD 0 []
      let rawVal := match parts.get? 1 with
        | some v => v
        | none => jstr "undefined"
      (decodeURIComponent rawVal).map (fun v => objSet o key v))
  (queryParams.foldl step (some [])).map (fun o =>
    { fields := o
      expires_in := jsParseInt (match objGet o (jstr "expires_in") with
        | some v => v
        | none => jstr "undefined") })

/-- Modelled from the spec: `DEFAULT_SILENT_TOKEN_RETRY_COUNT` is imported
from `./constants`, a file not present in the sources; the spec's §6 fixes
the token-exchange retry count default at 3. -/
def DEFAULT_SILENT_TOKEN_RETRY_COUNT : Nat := 3

/-- The parsed JSON body of a token-endpoint response, as destructured by
`getJSON` (utils.ts line 287): the `error` and `error_description`
properties and the rest of the fields (`...success`). -/
structure JsonBody where
  error : Option JStr
  error_description : Option JStr
  rest : List (JStr × JStr)
deriving DecidableEq

/-- What `fetchWithTimeout` resolves with: `{ok, json}` (utils.ts 231-235). -/
structure FetchResponse where
  ok : Bool
  json : JsonBody
deriving DecidableEq

/-- Errors thrown by `getJSON`: a rethrown network-level fetch error, or
the constructed HTTP error with `error` / `error_description` fields. -/
inductive GetJSONError (ε : Type) where
  | network (e : ε)
  | http (error : JStr) (error_description : JStr)
deriving DecidableEq

/-- JavaScript `a || b` for an optional string `a` (`undefined` and `''`
are falsy). -/
def jsOrString (v : Option JStr) (d : JStr) : JStr :=
  match v with
  | none => d
  | some s => if s = [] then d else s

/-- The retry loop of `getJSON` (utils.ts lines 268-280), parametrised by
the transport `tr` giving the outcome of each `fetchWithTimeout` call:
`for (i = 0; i < count; i++) try { response = await ...; fetchError =
null; break } catch (e) { fetchError = e }`, structured on the number of
iterations still to run.  Returns the final values of the `fetchError`
and `response` variables. -/
def retryGo {ε : Type} (tr : Nat → Except ε FetchResponse) :
    Nat → Nat → Option ε → Option FetchResponse →
    Option ε × Option FetchResponse
  | 0, _, fetchError, response => (fetchError, response)
  | remaining + 1, i, _, response =>
    match tr i with
    | Except.ok r => (none, some r)
    | Except.error e => retryGo tr remaining (i + 1) (some e) response

/-- The response post-processing of `getJSON` (utils.ts lines 286-302):
destructure `{json: {error, error_description, ...success}, ok}`; on a
non-ok response throw an error whose `error` is the body's `error` or
`'request_error'` and whose `error_description` is the body's
`error_description` or `` `HTTP error. Unable to fetch ${url}` ``; on an
ok response return `success`. -/
def processResponse {ε : Type} (url : JStr) (resp : FetchResponse) :
    Except (GetJSONError ε) (List (JStr × JStr)) :=
  if resp.ok = false then
    let errorMessage :=
      jsOrString resp.json.error_description (jstr "HTTP error. Unable to fetch " ++ url)
    Except.error (GetJSONError.http (jsOrString resp.json.error (jstr "request_error")) errorMessage)
  else Except.ok resp.json.rest

/-- `getJSON` (utils.ts lines 265-303): run the retry loop; if
`fetchError` is set, rethrow it; otherwise destructure the response.
The outer `none` models the `TypeError` of destructuring an `undefined`
response (reachable only when the retry count is 0). -/
def getJSON {ε : Type} (url : JStr) (tr : Nat → Except ε FetchResponse)
    (count : Nat) : Option (Except (GetJSONError ε) (List (JStr × JStr))) :=
  match retryGo tr count 0 none none with
  | (some e, _) => some (Except.error (GetJSONError.network e))
  | (none, some resp) => some (processResponse url resp)
  | (none, none) => none

/-- `oauthToken` (utils.ts lines 305-323) calls `getJSON` on
`` `${baseUrl}/oauth/token` `` with the default retry count. -/
def oauthToken {ε : Type} (baseUrl : JStr) (tr : Nat → Except ε FetchResponse) :
    Option (Except (GetJSONError ε) (List (JStr × JStr))) :=
  getJSON (baseUrl ++ jstr "/oauth/token") tr DEFAULT_SILENT_TOKEN_RETRY_COUNT

/-- A JavaScript object viewed as its ordered set of own property names
(all that is needed to state frame conditions about field mutation). -/
abbrev FieldSet := List JStr

/-- A heap of objects addressed by allocation index. -/
abbrev Heap := List FieldSet

def heapAlloc (h : Heap) (o : FieldSet) : Nat × Heap := (h.length, h ++ [o])

def heapGet (h : Heap) (r : Nat) : FieldSet := h.getD r []

def heapSet (h : Heap) (r : Nat) (o : FieldSet) : Heap := h.set r o

/-- Adding a property: keeps the original position if present. -/
def objAdd (o : FieldSet) (k : JStr) : FieldSet := if k ∈ o then o else o ++ [k]

/-- The `delete` operator on a property name. -/
def objDelete (o : FieldSet) (k : JStr) : FieldSet := o.filter (fun f => f ≠ k)

/-- Spread `{...base, k₁, k₂, ...}`: add the extra property names. -/
def spreadFields (base : FieldSet) (extra : FieldSet) : FieldSet :=
  extra.foldl objAdd base

/-- Field-effect model of `switchFetch` (utils.ts lines 225-237) applied
to the object behind `optsRef`: in worker mode, `delete opts.signal`
mutates that object in place and `sendMessage({url, timeout, ...opts})`
allocates a fresh message object; in direct mode nothing is mutated. -/
def switchFetchHeap (h : Heap) (optsRef : Nat) (worker : Bool) : Heap :=
  if worker then
    let h1 := heapSet h optsRef (objDelete (heapGet h optsRef) (jstr "signal"))
    (heapAlloc h1 (spreadFields
      (objAdd (objAdd [] (jstr "url")) (jstr "timeout"))
      (heapGet h1 optsRef))).2
  else h

/-- Field-effect model of `fetchWithTimeout` (utils.ts lines 239-263):
`const fetchOptions = {...options, signal}` allocates a fresh object (the
caller's object behind `optionsRef` is only read), which is then passed
to `switchFetch`. -/
def fetchWithTimeoutHeap (h : Heap) (optionsRef : Nat) (worker : Bool) :
    Nat × Heap :=
  let alloc := heapAlloc h (objAdd (heapGet h optionsRef) (jstr "signal"))
  (alloc.1, switchFetchHeap alloc.2 alloc.1 worker)

/-- The cross-window message payload `e.data.response`. -/
structure MsgResponse where
  error : Option JStr
  error_description : Option JStr
  code : Option JStr
  state : Option JStr
deriving DecidableEq

/-- `TIMEOUT_ERROR = { error: 'timeout', error_description: 'Timeout' }`
(utils.ts line 18). -/
def TIMEOUT_ERROR : MsgResponse :=
  { error := some (jstr "timeout")
    error_description := some (jstr "Timeout")
    code := none
    state := none }

/-- `e.data` of a message event: `{type, response}`. -/
structure MessageData where
  type : JStr
  response : MsgResponse
deriving DecidableEq

/-- A `message` event: its `origin` and its (possibly absent) `data`. -/
structure MessageEvent where
  origin : JStr
  data : Option MessageData
deriving DecidableEq

/-- JavaScript truthiness of an optional string (`undefined` and `''` are
falsy). -/
def jsTruthy (v : Option JStr) : Bool :=
  match v with
  | none => false
  | some s => s ≠ []

/-- First-settlement-wins semantics of a `Promise`: `resolve`/`reject`
after settlement is a no-op. -/
def promiseSettle {α : Type} (s : Option α) (v : α) : Option α :=
  match s with
  | some _ => s
  | none => some v

deriving instance DecidableEq for Except

/-- State of one `runIframe` attempt (utils.ts lines 46-86). -/
structure IframeState where
  listenerAttached : Bool
  timerActive : Bool
  iframeInBody : Bool
  cleanupScheduled : Bool
  settled : Option (Except MsgResponse MsgResponse)
deriving DecidableEq

/-- State after the synchronous part of `runIframe` (lines 52-84): the
timeout armed, the listener registered, the iframe appended. -/
def iframeStart : IframeState :=
  { listenerAttached := true
    timerActive := true
    iframeInBody := true
    cleanupScheduled := false
    settled := none }

/-- The timeout callback of `runIframe` (lines 63-66): when the armed
timer fires, `rej(TIMEOUT_ERROR)` then `removeIframe()`.  The listener is
not touched. -/
def iframeTimeoutStep (st : IframeState) : IframeState :=
  if st.timerActive then
    { st with
      timerActive := false
      settled := promiseSettle st.settled (Except.error TIMEOUT_ERROR)
      iframeInBody := false }
  else st

/-- Delivery of a `message` event to a `runIframe` attempt (lines 68-82):
the handler runs only while registered; returns early on an origin
mismatch or an untagged payload; otherwise settles, clears the timeout,
removes the listener and schedules the deferred iframe removal. -/
def iframeMessageStep (eventOrigin : JStr) (st : IframeState)
    (e : MessageEvent) : IframeState :=
  if st.listenerAttached = false then st
  else if e.origin ≠ eventOrigin then st
  else match e.data with
    | none => st
    | some d =>
      if d.type ≠ jstr "authorization_response" then st
      else
        { st with
          settled := promiseSettle st.settled
            (if jsTruthy d.response.error then Except.error d.response
             else Except.ok d.response)
          timerActive := false
          listenerAttached := false
          cleanupScheduled := true }

/-- What a `runPopup` attempt settles with: `resolve(response)`,
`reject(response)`, or the timeout rejection `{...TIMEOUT_ERROR, popup}`
carrying the popup handle. -/
inductive PopupOutcome where
  | resolved (r : MsgResponse)
  | rejected (r : MsgResponse)
  | rejectedTimeout (r : MsgResponse) (popup : Nat)
deriving DecidableEq

/-- State of one `runPopup` attempt (utils.ts lines 101-130). -/
structure PopupState where
  listenerAttached : Bool
  timerActive : Bool
  popupClosed : Bool
  settled : Option PopupOutcome
deriving DecidableEq

/-- State after the synchronous part of `runPopup`: timer armed, listener
registered, popup open. -/
def popupStart : PopupState :=
  { listenerAttached := true
    timerActive := true
    popupClosed := false
    settled := none }

/-- The timeout callback of `runPopup` (lines 115-117): when the armed
timer fires, `reject({...TIMEOUT_ERROR, popup})`.  The popup is not
closed and the listener is not touched. -/
def popupTimeoutStep (popup : Nat) (st : PopupState) : PopupState :=
  if st.timerActive then
    { st with
      timerActive := false
      settled := promiseSettle st.settled
        (PopupOutcome.rejectedTimeout TIMEOUT_ERROR popup) }
  else st

/-- Delivery of a `message` event to a `runPopup` attempt (lines
118-128): no origin check; returns early on an untagged payload;
otherwise clears the timeout, closes the popup and settles.  The listener
is never removed. -/
def popupMessageStep (st : PopupState) (e : MessageEvent) : PopupState :=
  if st.listenerAttached = false then st
  else match e.data with
    | none => st
    | some d =>
      if d.type ≠ jstr "authorization_response" then st
      else
        { st with
          timerActive := false
          popupClosed := true
          settled := promiseSettle st.settled
            (if jsTruthy d.response.error then PopupOutcome.rejected d.response
             else PopupOutcome.resolved d.response) }

/-- The standard base64 alphabet used by `btoa`/`atob`. -/
def b64Alphabet : JStr :=
  jstr "ABCDEFGHIJKLMNOPQRSTUVWXYZabcdefghijklmnopqrstuvwxyz0123456789+/"

/-- The base64 digit of a 6-bit value. -/
def b64Char (n : Nat) : Char := b64Alphabet.getD n 'A'

/-- The 6-bit value of a base64 digit (`none` for a non-alphabet
character, on which `atob` throws). -/
def b64Index (c : Char) : Option Nat := b64Alphabet.indexOf? c

/-- WHATWG `btoa` on a sequence of bytes (the code points of a latin-1
string): 3 bytes to 4 digits, `=`-padded. -/
def btoaBytes : List Nat → JStr
  | [] => []
  | [a] => [b64Char (a / 4), b64Char (a % 4 * 16), '=', '=']
  | [a, b] => [b64Char (a / 4), b64Char (a % 4 * 16 + b / 16), b64Char (b % 16 * 4), '=']
  | a :: b :: c :: rest =>
    b64Char (a / 4) :: b64Char (a % 4 * 16 + b / 16) ::
    b64Char (b % 16 * 4 + c / 64) :: b64Char (c % 64) :: btoaBytes rest

/-- Forgiving-base64 padding removal: when the length is a multiple of 4,
strip up to two trailing `=`. -/
def stripPadding (l : JStr) : JStr :=
  if l.length % 4 = 0 then
    match l.reverse with
    | '=' :: '=' :: r => r.reverse
    | '=' :: r => r.reverse
    | _ => l
  else l

/-- The digit groups of forgiving-base64 decoding: 4 digits to 3 bytes, a
final group of 2 or 3 digits to 1 or 2 bytes (leftover bits discarded). -/
def atobChars : JStr → Option (List Nat)
  | [] => some []
  | [_] => none
  | [c1, c2] => do
    let n1 ← b64Index c1
    let n2 ← b64Index c2
    pure [n1 * 4 + n2 / 16]
  | [c1, c2, c3] => do
    let n1 ← b64Index c1
    let n2 ← b64Index c2
    let n3 ← b64Index c3
    pure [n1 * 4 + n2 / 16, n2 % 16 * 16 + n3 / 4]
  | c1 :: c2 :: c3 :: c4 :: rest => do
    let n1 ← b64Index c1
    let n2 ← b64Index c2
    let n3 ← b64Index c3
    let n4 ← b64Index c4
    let tail ← atobChars rest
    pure ((n1 * 4 + n2 / 16) :: (n2 % 16 * 16 + n3 / 4) :: (n3 % 4 * 64 + n4) :: tail)

/-- WHATWG `atob` (forgiving-base64 decode, whitespace handling elided):
strip padding, reject a remaining length of 1 mod 4 or a leftover `=`,
decode the digit groups.  Returns the byte sequence (the code points of
the resulting latin-1 string); `none` models a thrown `InvalidCharacterError`. -/
def atob (l : JStr) : Option (List Nat) :=
  let t := stripPadding l
  if t.length % 4 = 1 then none
  else if '=' ∈ t then none
  else atobChars t

/-- The per-character substitution of `urlEncodeB64`: `+`→`-`, `/`→`_`,
`=`→`` (dropped). -/
def urlEncChar (c : Char) : Option Char :=
  if c = '+' then some '-'
  else if c = '/' then some '_'
  else if c = '=' then none
  else some c

/-- `urlEncodeB64` (utils.ts lines 185-188). -/
def urlEncodeB64 (input : JStr) : JStr := input.filterMap urlEncChar

/-- A lower-case hexadecimal digit. -/
def hexDigitChar (n : Nat) : Char :=
  if n < 10 then Char.ofNat ('0'.toNat + n) else Char.ofNat ('a'.toNat + n - 10)

/-- The JS two-digit lower-case hex rendering
`('00' + b.toString(16)).slice(-2)` of a byte. -/
def toHex2 (b : Nat) : JStr := [hexDigitChar (b / 16), hexDigitChar (b % 16)]

/-- The percent-escaping of a byte sequence built at utils.ts lines
194-198: each byte of the `atob` output becomes `'%' + hex`. -/
def escapeBytes (bytes : List Nat) : JStr :=
  bytes.flatMap (fun b => '%' :: toHex2 b)

/-- `decodeB64` (utils.ts lines 191-199):
`decodeURIComponent(atob(input).split('').map(c => '%' + hex(c)).join(''))`. -/
def decodeB64 (input : JStr) : Option JStr :=
  (atob input).bind (fun bytes => decodeURIComponent (escapeBytes bytes))

/-- The per-character substitution of `urlDecodeB64`: `_`→`/`, `-`→`+`. -/
def urlDecChar (c : Char) : Char :=
  if c = '_' then '/' else if c = '-' then '+' else c

/-- `urlDecodeB64` (utils.ts lines 201-202): substitute back, then
`decodeB64`. -/
def urlDecodeB64 (input : JStr) : Option JStr :=
  decodeB64 (input.map urlDecChar)

/-- `bufferToBase64UrlEncoded` (utils.ts lines 204-209): coerce to bytes
(`new Uint8Array` truncates each element mod 256), `btoa` the
corresponding latin-1 string, then `urlEncodeB64`. -/
def bufferToBase64UrlEncoded (input : List Nat) : JStr :=
  urlEncodeB64 (btoaBytes (input.map (fun b => b % 256)))

/-- The UTF-8 encoding of one Unicode scalar value. -/
def utf8EncodeChar (c : Char) : List Nat :=
  let n := c.toNat
  if n < 0x80 then [n]
  else if n < 0x800 then [0xC0 + n / 64, 0x80 + n % 64]
  else if n < 0x10000 then [0xE0 + n / 4096, 0x80 + n / 64 % 64, 0x80 + n % 64]
  else [0xF0 + n / 262144, 0x80 + n / 4096 % 64, 0x80 + n / 64 % 64, 0x80 + n % 64]

/-- The UTF-8 encoding of a string, as a byte sequence. -/
def utf8Encode (s : JStr) : List Nat := s.flatMap utf8EncodeChar

/-- The unpadded base64 digit string of a byte sequence: what remains of
`btoaBytes` after `urlEncodeB64` drops the `=` padding (and after the
url-safe substitution is undone). -/
def encNoPad : List Nat → JStr
  | [] => []
  | [a] => [b64Char (a / 4), b64Char (a % 4 * 16)]
  | [a, b] => [b64Char (a / 4), b64Char (a % 4 * 16 + b / 16), b64Char (b % 16 * 4)]
  | a :: b :: c :: rest =>
    b64Char (a / 4) :: b64Char (a % 4 * 16 + b / 16) ::
    b64Char (b % 16 * 4 + c / 64) :: b64Char (c % 64) :: encNoPad rest

/-- The comma-separated token list `getUniqueScopes` dedupes, with empty
segments dropped: the merged space/comma-delimited tokens of the inputs. -/
def mergedScopeTokens (scopes : List JStr) : List JStr :=
  (splitOnChar ','
    ((joinWith ',' (scopes.filter (fun s => s ≠ []))).map
      (fun c => if isJsWhitespace c then ',' else c))).filter (fun t => t ≠ [])

theorem readEscape_length {s : JStr} {b : Nat} {r : JStr}
    (h : readEscape s = some (b, r)) : s.length = r.length + 3 := by
  rw [readEscape.eq_def] at h
  split at h
  · rename_i h1 h2 rest
    simp only [Option.bind_eq_bind, Option.bind_eq_some, Option.pure_def,
      Option.some_inj, Prod.mk.injEq] at h
    obtain ⟨v1, _, v2, _, _, hr⟩ := h
    subst hr
    simp
  · exact absurd h (by simp)

theorem decodeCont2_length {b1 : Nat} {r1 : JStr} {c : Char} {r : JStr}
    (h : decodeCont2 b1 r1 = some (c, r)) : r1.length = r.length + 3 := by
  unfold decodeCont2 at h
  simp only [Option.bind_eq_bind, Option.bind_eq_some] at h
  obtain ⟨⟨b2, r2⟩, hre2, h⟩ := h
  dsimp only at h
  have l2 := readEscape_length hre2
  split_ifs at h
  simp only [Option.some_inj, Prod.mk.injEq] at h
  obtain ⟨-, hr⟩ := h
  subst hr
  omega

theorem decodeCont3_length {b1 : Nat} {r1 : JStr} {c : Char} {r : JStr}
    (h : decodeCont3 b1 r1 = some (c, r)) : r1.length = r.length + 6 := by
  unfold decodeCont3 at h
  simp only [Option.bind_eq_bind, Option.bind_eq_some] at h
  obtain ⟨⟨b2, r2⟩, hre2, ⟨⟨b3, r3⟩, hre3, h⟩⟩ := h
  dsimp only at hre3 h
  have l2 := readEscape_length hre2
  have l3 := readEscape_length hre3
  split_ifs at h
  simp only [Option.some_inj, Prod.mk.injEq] at h
  obtain ⟨-, hr⟩ := h
  subst hr
  omega

theorem decodeCont4_length {b1 : Nat} {r1 : JStr} {c : Char} {r : JStr}
    (h : decodeCont4 b1 r1 = some (c, r)) : r1.length = r.length + 9 := by
  unfold decodeCont4 at h
  simp only [Option.bind_eq_bind, Option.bind_eq_some] at h
  obtain ⟨⟨b2, r2⟩, hre2, ⟨⟨b3, r3⟩, hre3, ⟨⟨b4, r4⟩, hre4, h⟩⟩⟩ := h
  dsimp only at hre3 hre4 h
  have l2 := readEscape_length hre2
  have l3 := readEscape_length hre3
  have l4 := readEscape_length hre4
  split_ifs at h
  simp only [Option.some_inj, Prod.mk.injEq] at h
  obtain ⟨-, hr⟩ := h
  subst hr
  omega

theorem decodeEscapedUnit_shrinks {s : JStr} {c : Char} {r : JStr}
    (h : decodeEscapedUnit s = some (c, r)) : r.length < s.length := by
  unfold decodeEscapedUnit at h
  simp only [Option.bind_eq_bind, Option.bind_eq_some] at h
  obtain ⟨⟨b1, r1⟩, hre1, h⟩ := h
  dsimp only at h
  have l1 := readEscape_length hre1
  split_ifs at h
  · simp only [Option.some_inj, Prod.mk.injEq] at h
    obtain ⟨-, hr⟩ := h
    subst hr
    omega
  · have := decodeCont2_length h
    omega
  · have := decodeCont3_length h
    omega
  · have := decodeCont4_length h
    omega

theorem retryGo_succ {ε : Type} (tr : Nat → Except ε FetchResponse)
    (remaining i : Nat) (fe : Option ε) (resp : Option FetchResponse) :
    retryGo tr (remaining + 1) i fe resp =
      match tr i with
      | Except.ok r => (none, some r)
      | Except.error e => retryGo tr remaining (i + 1) (some e) resp := rfl

theorem retryGo_start3 {ε : Type} (tr : Nat → Except ε FetchResponse)
    (fe : Option ε) (resp : Option FetchResponse) :
    retryGo tr 3 0 fe resp =
      match tr 0 with
      | Except.ok r => (none, some r)
      | Except.error e => retryGo tr 2 1 (some e) resp := rfl

theorem retryGo_start2 {ε : Type} (tr : Nat → Except ε FetchResponse)
    (fe : Option ε) (resp : Option FetchResponse) :
    retryGo tr 2 1 fe resp =
      match tr 1 with
      | Except.ok r => (none, some r)
      | Except.error e => retryGo tr 1 2 (some e) resp := rfl

theorem retryGo_start1 {ε : Type} (tr : Nat → Except ε FetchResponse)
    (fe : Option ε) (resp : Option FetchResponse) :
    retryGo tr 1 2 fe resp =
      match tr 2 with
      | Except.ok r => (none, some r)
      | Except.error e => (some e, resp) := rfl

theorem getJSON_three {ε : Type} (url : JStr) (tr : Nat → Except ε FetchResponse) :
    getJSON url tr 3 =
      match tr 0 with
      | Except.ok r => some (processResponse url r)
      | Except.error _ =>
        match tr 1 with
        | Except.ok r => some (processResponse url r)
        | Except.error _ =>
          match tr 2 with
          | Except.ok r => some (processResponse url r)
          | Except.error e => some (Except.error (GetJSONError.network e)) := by
  unfold getJSON
  rw [retryGo_start3]
  cases h0 : tr 0 with
  | ok r => rfl
  | error e0 =>
    dsimp only
    rw [retryGo_start2]
    cases h1 : tr 1 with
    | ok r => rfl
    | error e1 =>
      dsimp only
      rw [retryGo_start1]
      cases h2 : tr 2 with
      | ok r => rfl
      | error e2 => rfl

/-- C1: for the token exchange (`oauthToken`/`getJSON`), a network-level
failure of the transport is retried, up to `DEFAULT_SILENT_TOKEN_RETRY_COUNT
= 3` attempts; a completed response (whatever its `ok` flag) is terminal
on the first attempt and is never retried; when all 3 attempts fail at
the network level, the error thrown is exactly the error of the last
(third) attempt. -/
theorem claim_C1_token_exchange_retry {ε : Type} (url : JStr)
    (tr : Nat → Except ε FetchResponse) :
    (∀ r, tr 0 = Except.ok r →
      getJSON url tr DEFAULT_SILENT_TOKEN_RETRY_COUNT = some (processResponse url r)) ∧
    (∀ e0 e1 r, tr 0 = Except.error e0 → tr 1 = Except.error e1 →
      tr 2 = Except.ok r →
      getJSON url tr DEFAULT_SILENT_TOKEN_RETRY_COUNT = some (processResponse url r)) ∧
    (∀ e0 e1 e2, tr 0 = Except.error e0 → tr 1 = Except.error e1 →
      tr 2 = Except.error e2 →
      getJSON url tr DEFAULT_SILENT_TOKEN_RETRY_COUNT =
        some (Except.error (GetJSONError.network e2))) := by
  refine ⟨?_, ?_, ?_⟩ <;> intros <;>
    simp_all [DEFAULT_SILENT_TOKEN_RETRY_COUNT, getJSON_three]

/-- C1 witness: transport failing twice then succeeding resolves with the
third response's body. -/
theorem claim_C1_witness :
    getJSON (jstr "u")
      (fun i => if i = 0 then Except.error 0 else if i = 1 then Except.error 1
        else Except.ok ⟨true, ⟨none, none, [(jstr "access_token", jstr "tok")]⟩⟩)
      DEFAULT_SILENT_TOKEN_RETRY_COUNT =
      some (processResponse (jstr "u")
        ⟨true, ⟨none, none, [(jstr "access_token", jstr "tok")]⟩⟩) :=
  (claim_C1_token_exchange_retry (jstr "u") _).2.1 0 1
    ⟨true, ⟨none, none, [(jstr "access_token", jstr "tok")]⟩⟩ rfl rfl rfl

/-- C6 counterexample: on a completed HTTP 4xx response with an empty
body, the fallback `error_description` built by `getJSON` is
`"HTTP error. Unable to fetch <url>"`, not the claimed
`"HTTP error fetching <url>"`. -/
theorem claim_C6_counterexample :
    getJSON (jstr "u")
      (fun _ => (Except.ok ⟨false, ⟨none, none, []⟩⟩ : Except Unit FetchResponse))
      DEFAULT_SILENT_TOKEN_RETRY_COUNT =
      some (Except.error (GetJSONError.http (jstr "request_error")
        (jstr "HTTP error. Unable to fetch u"))) ∧
    jstr "HTTP error. Unable to fetch u" ≠ jstr "HTTP error fetching u" := by
  constructor
  · decide
  · decide

/-- C6 (amended): on a completed non-2xx response `getJSON` throws an
error whose `error` is the body's `error` or `'request_error'` and whose
`error_description` is the body's `error_description` or the generic
message `"HTTP error. Unable to fetch <url>"`; on a 2xx response it
returns the body with `error`/`error_description` stripped. -/
theorem claim_C6_http_error_mapping {ε : Type} (url : JStr)
    (tr : Nat → Except ε FetchResponse) (r : FetchResponse)
    (h0 : tr 0 = Except.ok r) :
    (r.ok = false →
      getJSON url tr DEFAULT_SILENT_TOKEN_RETRY_COUNT =
        some (Except.error (GetJSONError.http
          (jsOrString r.json.error (jstr "request_error"))
          (jsOrString r.json.error_description
            (jstr "HTTP error. Unable to fetch " ++ url))))) ∧
    (r.ok = true →
      getJSON url tr DEFAULT_SILENT_TOKEN_RETRY_COUNT =
        some (Except.ok r.json.rest)) := by
  constructor <;> intro hok <;>
    simp_all [DEFAULT_SILENT_TOKEN_RETRY_COUNT, getJSON_three, processResponse]

/-- C6 witness: a concrete 400 response with body
`{error: 'invalid_grant', error_description: 'bad code'}` is thrown as
that exact error, and a concrete 200 body is returned stripped. -/
theorem claim_C6_witness :
    getJSON (jstr "u")
      (fun _ => (Except.ok ⟨false,
        ⟨some (jstr "invalid_grant"), some (jstr "bad code"), []⟩⟩ :
        Except Unit FetchResponse))
      DEFAULT_SILENT_TOKEN_RETRY_COUNT =
      some (Except.error (GetJSONError.http (jstr "invalid_grant")
        (jstr "bad code"))) :=
  ((claim_C6_http_error_mapping (jstr "u") _
    ⟨false, ⟨some (jstr "invalid_grant"), some (jstr "bad code"), []⟩⟩ rfl).1 rfl)

theorem heapGet_append (h : Heap) (o : FieldSet) (r : Nat) (hr : r < h.length) :
    heapGet (h ++ [o]) r = heapGet h r := by
  unfold heapGet
  rw [List.getD_append _ _ _ _ hr]

theorem heapGet_heapSet_ne (h : Heap) (i r : Nat) (o : FieldSet) (hne : r ≠ i) :
    heapGet (heapSet h i o) r = heapGet h r := by
  unfold heapGet heapSet
  simp [List.getD_eq_getElem?_getD, List.getElem?_set_ne (Ne.symm hne)]

/-- C10: `fetchWithTimeout` never mutates the caller's options object: in
both direct and delegated (worker) mode the spread copy is the only
object written, so the caller's object keeps exactly its fields. -/
theorem claim_C10_fetchWithTimeout_no_mutation (h : Heap) (r : Nat)
    (worker : Bool) (hr : r < h.length) :
    heapGet (fetchWithTimeoutHeap h r worker).2 r = heapGet h r := by
  unfold fetchWithTimeoutHeap switchFetchHeap heapAlloc heapGet heapSet
  have hr1 : r < h.length + 1 := Nat.lt_succ_of_lt hr
  have hne : h.length ≠ r := by omega
  cases worker with
  | false => simp [List.getD_eq_getElem?_getD, List.getElem?_append, hr]
  | true =>
    simp [List.getD_eq_getElem?_getD, List.getElem?_append, hr, hr1,
      List.getElem?_set, hne]

/-- C10 witness: a concrete two-field options object is untouched by a
worker-mode call. -/
theorem claim_C10_witness :
    heapGet (fetchWithTimeoutHeap [[jstr "method", jstr "body"]] 0 true).2 0 =
      heapGet [[jstr "method", jstr "body"]] 0 :=
  claim_C10_fetchWithTimeout_no_mutation [[jstr "method", jstr "body"]] 0 true
    (by decide)

/-- C8: `createRandomString` maps each of its 43 random bytes through
`charset[v % 66]`, so the output has length 43 and draws only on the
66-character alphabet. -/
theorem claim_C8_createRandomString (rv : List Nat) (h : rv.length = 43) :
    (createRandomString rv).length = 43 ∧
    ∀ c ∈ createRandomString rv, c ∈ charset := by
  constructor
  · simp [createRandomString, h]
  · intro c hc
    simp only [createRandomString, List.mem_map] at hc
    obtain ⟨v, -, hv⟩ := hc
    have hlt : v % charset.length < charset.length :=
      Nat.mod_lt _ (by decide)
    rw [← hv, List.getD_eq_getElem _ _ hlt]
    exact List.getElem_mem _

theorem promiseSettle_some {α : Type} (v w : α) :
    promiseSettle (some v) w = some v := rfl

/-- C3 counterexample: when the `runIframe` timeout fires first the
attempt completes (the promise settles) but the message listener is NOT
detached, refuting "on every completion path both the listener is
detached and the timer cleared together". -/
theorem claim_C3_counterexample :
    (iframeTimeoutStep iframeStart).settled.isSome = true ∧
    (iframeTimeoutStep iframeStart).listenerAttached = true := by decide

/-- C3 (amended): per attempt there is one listener and one timer, and
the actual teardown is: on the `runIframe` message path listener and timer
are torn down together; on the `runIframe` timeout path the timer has
fired but the listener stays attached; `runPopup` clears its timer on the
message path but never detaches its listener on any path.  Settlement is
exactly once: no later event changes a settled outcome. -/
theorem claim_C3_teardown (eventOrigin : JStr) :
    (∀ st e d, st.listenerAttached = true → e.origin = eventOrigin →
      e.data = some d → d.type = jstr "authorization_response" →
      (iframeMessageStep eventOrigin st e).listenerAttached = false ∧
      (iframeMessageStep eventOrigin st e).timerActive = false) ∧
    (∀ st : IframeState, (iframeTimeoutStep st).timerActive = false) ∧
    (∀ st : IframeState,
      (iframeTimeoutStep st).listenerAttached = st.listenerAttached) ∧
    (∀ st e d, st.listenerAttached = true → e.data = some d →
      d.type = jstr "authorization_response" →
      (popupMessageStep st e).timerActive = false ∧
      (popupMessageStep st e).listenerAttached = true) ∧
    (∀ p st, (popupTimeoutStep p st).listenerAttached = st.listenerAttached) ∧
    (∀ st e v, st.settled = some v →
      (iframeMessageStep eventOrigin st e).settled = some v) ∧
    (∀ st v, st.settled = some v → (iframeTimeoutStep st).settled = some v) ∧
    (∀ st e v, st.settled = some v → (popupMessageStep st e).settled = some v) ∧
    (∀ p st v, st.settled = some v →
      (popupTimeoutStep p st).settled = some v) := by
  refine ⟨?_, ?_, ?_, ?_, ?_, ?_, ?_, ?_, ?_⟩
  · intro st e d hl ho hd ht
    simp [iframeMessageStep, hl, ho, hd, ht]
  · intro st
    unfold iframeTimeoutStep
    split_ifs with h
    · rfl
    · simpa using h
  · intro st
    unfold iframeTimeoutStep
    split_ifs <;> rfl
  · intro st e d hl hd ht
    simp [popupMessageStep, hl, hd, ht]
  · intro p st
    unfold popupTimeoutStep
    split_ifs <;> rfl
  · intro st e v hv
    unfold iframeMessageStep
    split_ifs
    · exact hv
    · exact hv
    · cases e.data with
      | none => exact hv
      | some d =>
        dsimp only
        split_ifs
        all_goals first
        | exact hv
        | simp [hv, promiseSettle_some]
  · intro st v hv
    unfold iframeTimeoutStep
    split_ifs
    · simp [hv, promiseSettle_some]
    · exact hv
  · intro st e v hv
    unfold popupMessageStep
    split_ifs
    · exact hv
    · cases e.data with
      | none => exact hv
      | some d =>
        dsimp only
        split_ifs
        all_goals first
        | exact hv
        | simp [hv, promiseSettle_some]
  · intro p st v hv
    unfold popupTimeoutStep
    split_ifs
    · simp [hv, promiseSettle_some]
    · exact hv

/-- C3 witness: a concrete matching message on a fresh iframe attempt
detaches the listener and clears the timer. -/
theorem claim_C3_witness :
    (iframeMessageStep (jstr "https://auth") iframeStart
      ⟨jstr "https://auth", some ⟨jstr "authorization_response",
        ⟨none, none, some (jstr "c"), some (jstr "s")⟩⟩⟩).listenerAttached
      = false ∧
    (iframeMessageStep (jstr "https://auth") iframeStart
      ⟨jstr "https://auth", some ⟨jstr "authorization_response",
        ⟨none, none, some (jstr "c"), some (jstr "s")⟩⟩⟩).timerActive
      = false :=
  (claim_C3_teardown (jstr "https://auth")).1 iframeStart
    ⟨jstr "https://auth", some ⟨jstr "authorization_response",
      ⟨none, none, some (jstr "c"), some (jstr "s")⟩⟩⟩
    ⟨jstr "authorization_response", ⟨none, none, some (jstr "c"), some (jstr "s")⟩⟩
    rfl rfl rfl rfl

/-- C5 counterexample: when the `runPopup` timeout fires, the attempt
rejects with `{...TIMEOUT_ERROR, popup}` but the popup is NOT closed,
refuting "the popup surface is released (popup closed)". -/
theorem claim_C5_counterexample :
    (popupTimeoutStep 7 popupStart).settled =
      some (PopupOutcome.rejectedTimeout TIMEOUT_ERROR 7) ∧
    (popupTimeoutStep 7 popupStart).popupClosed = false := by decide

/-- C5 (amended): if the timeout elapses before any matching message, the
`runIframe` attempt rejects with `{error: 'timeout', error_description:
'Timeout'}` and the iframe is removed from the document; the `runPopup`
attempt rejects with that error object extended with the popup handle,
but the popup itself is not closed by the timeout path. -/
theorem claim_C5_timeout_rejection (st : IframeState) (pst : PopupState)
    (p : Nat) (hi : st.settled = none) (hp : pst.settled = none)
    (hti : st.timerActive = true) (htp : pst.timerActive = true) :
    (iframeTimeoutStep st).settled = some (Except.error TIMEOUT_ERROR) ∧
    (iframeTimeoutStep st).iframeInBody = false ∧
    (popupTimeoutStep p pst).settled =
      some (PopupOutcome.rejectedTimeout TIMEOUT_ERROR p) ∧
    (popupTimeoutStep p pst).popupClosed = pst.popupClosed := by
  simp [iframeTimeoutStep, popupTimeoutStep, hti, htp, hi, hp, promiseSettle]

/-- C5 witness: the timeout firing on fresh iframe and popup attempts. -/
theorem claim_C5_witness :
    (iframeTimeoutStep iframeStart).settled =
      some (Except.error TIMEOUT_ERROR) ∧
    (iframeTimeoutStep iframeStart).iframeInBody = false ∧
    (popupTimeoutStep 7 popupStart).settled =
      some (PopupOutcome.rejectedTimeout TIMEOUT_ERROR 7) ∧
    (popupTimeoutStep 7 popupStart).popupClosed = popupStart.popupClosed :=
  claim_C5_timeout_rejection iframeStart popupStart 7 rfl rfl rfl rfl

/-- C9: a message whose origin differs from the expected
authorization-server origin, or whose payload is absent or not tagged
`authorization_response`, leaves a `runIframe` attempt completely
unchanged: it neither resolves nor rejects nor removes the iframe, and
remains pending for a later matching message or the timeout. -/
theorem claim_C9_iframe_ignores_nonmatching (eventOrigin : JStr)
    (st : IframeState) (e : MessageEvent)
    (h : e.origin ≠ eventOrigin ∨ e.data = none ∨
      ∃ d, e.data = some d ∧ d.type ≠ jstr "authorization_response") :
    iframeMessageStep eventOrigin st e = st := by
  unfold iframeMessageStep
  rcases h with h | h | ⟨d, hd, ht⟩
  · split_ifs <;> simp_all
  · split_ifs <;> simp_all
  · rw [hd]
    split_ifs <;> simp_all

/-- C4: `parseQueryResult` strips the fragment, splits on `&` then `=`,
percent-decodes values and coerces `expires_in` with `parseInt`:
`parseQueryResult('code=abc&state=xyz&expires_in=3600#frag')` is
`{code: 'abc', state: 'xyz', expires_in: 3600}`; an absent or non-numeric
`expires_in` yields the `NaN` sentinel (`none`) without an error being
thrown, and in general an absent `expires_in` field always yields the
sentinel. -/
theorem claim_C4_parseQueryResult :
    parseQueryResult (jstr "code=abc&state=xyz&expires_in=3600#frag") =
      some { fields := [(jstr "code", jstr "abc"), (jstr "state", jstr "xyz"),
                        (jstr "expires_in", jstr "3600")],
             expires_in := some 3600 } ∧
    parseQueryResult (jstr "code=abc&state=xyz") =
      some { fields := [(jstr "code", jstr "abc"), (jstr "state", jstr "xyz")],
             expires_in := none } ∧
    parseQueryResult (jstr "code=abc&expires_in=xyz") =
      some { fields := [(jstr "code", jstr "abc"), (jstr "expires_in", jstr "xyz")],
             expires_in := none } ∧
    ∀ qs res, parseQueryResult qs = some res →
      objGet res.fields (jstr "expires_in") = none → res.expires_in = none := by
  refine ⟨by decide, by decide, by decide, ?_⟩
  intro qs res hres hnone
  unfold parseQueryResult at hres
  simp only [Option.map_eq_some'] at hres
  obtain ⟨o, -, ho⟩ := hres
  rw [← ho] at hnone ⊢
  dsimp only at hnone ⊢
  rw [hnone]
  decide

/-- C4 witness: a query string with no `expires_in` field parses to a
result whose `expires_in` is the `NaN` sentinel. -/
theorem claim_C4_witness :
    parseQueryResult (jstr "code=x") =
      some { fields := [(jstr "code", jstr "x")],
             expires_in := (none : Option Int) } ∧
    objGet ([(jstr "code", jstr "x")] : JsObject) (jstr "expires_in") = none ∧
    ({ fields := [(jstr "code", jstr "x")],
       expires_in := (none : Option Int) } : AuthenticationResult).expires_in
      = none :=
  ⟨by decide, by decide,
    claim_C4_parseQueryResult.2.2.2 (jstr "code=x")
      { fields := [(jstr "code", jstr "x")], expires_in := none }
      (by decide) (by decide)⟩

theorem splitOnChar_ne_nil (sep : Char) (s : JStr) : splitOnChar sep s ≠ [] := by
  induction s with
  | nil => simp [splitOnChar]
  | cons c rest ih =>
    simp only [splitOnChar]
    split_ifs
    · simp
    · cases h : splitOnChar sep rest <;> simp

theorem mem_splitOnChar {sep : Char} {s t : JStr} (ht : t ∈ splitOnChar sep s) :
    ∀ c ∈ t, c ∈ s ∧ c ≠ sep := by
  induction s generalizing t with
  | nil =>
    simp only [splitOnChar, List.mem_singleton] at ht
    subst ht
    simp
  | cons a rest ih =>
    simp only [splitOnChar] at ht
    by_cases ha : a = sep
    · rw [if_pos ha] at ht
      rcases List.mem_cons.mp ht with h | h
      · subst h; simp
      · intro c hc
        obtain ⟨h1, h2⟩ := ih h c hc
        exact ⟨List.mem_cons_of_mem _ h1, h2⟩
    · rw [if_neg ha] at ht
      cases hr : splitOnChar sep rest with
      | nil => exact absurd hr (splitOnChar_ne_nil sep rest)
      | cons seg segs =>
        rw [hr] at ht
        dsimp only at ht
        rcases List.mem_cons.mp ht with h | h
        · subst h
          intro c hc
          rcases List.mem_cons.mp hc with h | h
          · subst h
            exact ⟨List.mem_cons_self _ _, ha⟩
          · have hseg : seg ∈ splitOnChar sep rest := by
              rw [hr]; exact List.mem_cons_self _ _
            obtain ⟨h1, h2⟩ := ih hseg c h
            exact ⟨List.mem_cons_of_mem _ h1, h2⟩
        · have hsegs : t ∈ splitOnChar sep rest := by
            rw [hr]; exact List.mem_cons_of_mem _ h
          intro c hc
          obtain ⟨h1, h2⟩ := ih hsegs c hc
          exact ⟨List.mem_cons_of_mem _ h1, h2⟩

theorem splitOnChar_no_sep {sep : Char} {t : JStr} (h : sep ∉ t) :
    splitOnChar sep t = [t] := by
  induction t with
  | nil => rfl
  | cons c rest ih =>
    have hc : ¬(c = sep) := fun hh => h (hh ▸ List.mem_cons_self _ _)
    have hrest : sep ∉ rest := fun hh => h (List.mem_cons_of_mem _ hh)
    simp only [splitOnChar]
    rw [if_neg hc, ih hrest]

theorem splitOnChar_append_sep {sep : Char} {u : JStr} :
    ∀ {t : JStr}, sep ∉ t →
      splitOnChar sep (t ++ sep :: u) = t :: splitOnChar sep u
  | [], _ => by simp [splitOnChar]
  | c :: rest, h => by
    have hc : ¬(c = sep) := fun hh => h (hh ▸ List.mem_cons_self _ _)
    have hrest : sep ∉ rest := fun hh => h (List.mem_cons_of_mem _ hh)
    simp only [List.cons_append, splitOnChar, List.append_eq]
    rw [if_neg hc, splitOnChar_append_sep hrest]

theorem splitOnChar_joinWith {sep : Char} :
    ∀ {L : List JStr}, (∀ t ∈ L, sep ∉ t) → L ≠ [] →
      splitOnChar sep (joinWith sep L) = L
  | [], _, hne => absurd rfl hne
  | [t], hL, _ => by
    simp only [joinWith]
    exact splitOnChar_no_sep (hL t (List.mem_cons_self _ _))
  | t :: t' :: L', hL, _ => by
    simp only [joinWith]
    rw [splitOnChar_append_sep (hL t (List.mem_cons_self _ _))]
    rw [splitOnChar_joinWith (fun x hx => hL x (List.mem_cons_of_mem _ hx))
      (by simp)]

theorem mem_dedupeAux {α : Type} [DecidableEq α] {seen l : List α} {x : α}
    (hx : x ∈ dedupeAux seen l) : x ∈ l ∧ x ∉ seen := by
  induction l generalizing seen with
  | nil => simp [dedupeAux] at hx
  | cons y ys ih =>
    simp only [dedupeAux] at hx
    by_cases hy : y ∈ seen
    · rw [if_pos hy] at hx
      obtain ⟨h1, h2⟩ := ih hx
      exact ⟨List.mem_cons_of_mem _ h1, h2⟩
    · rw [if_neg hy] at hx
      rcases List.mem_cons.mp hx with h | h
      · subst h
        exact ⟨List.mem_cons_self _ _, hy⟩
      · obtain ⟨h1, h2⟩ := ih h
        exact ⟨List.mem_cons_of_mem _ h1,
          fun hh => h2 (List.mem_cons_of_mem _ hh)⟩

theorem dedupeAux_nodup {α : Type} [DecidableEq α] (seen l : List α) :
    (dedupeAux seen l).Nodup := by
  induction l generalizing seen with
  | nil => simp [dedupeAux]
  | cons y ys ih =>
    simp only [dedupeAux]
    split_ifs with hy
    · exact ih seen
    · refine List.nodup_cons.mpr ⟨?_, ih (y :: seen)⟩
      intro hmem
      exact (mem_dedupeAux hmem).2 (List.mem_cons_self _ _)

theorem dedupe_nodup {α : Type} [DecidableEq α] (l : List α) :
    (dedupe l).Nodup := dedupeAux_nodup [] l

theorem dedupe_ne_nil {α : Type} [DecidableEq α] {x : α} {l : List α} :
    dedupe (x :: l) ≠ [] := by
  simp [dedupe, dedupeAux]

theorem dedupeAux_congr {α : Type} [DecidableEq α] :
    ∀ {l seen1 seen2 : List α}, (∀ y ∈ l, (y ∈ seen1 ↔ y ∈ seen2)) →
      dedupeAux seen1 l = dedupeAux seen2 l := by
  intro l
  induction l with
  | nil => intro seen1 seen2 _; rfl
  | cons y ys ih =>
    intro seen1 seen2 h
    have hy := h y (List.mem_cons_self _ _)
    simp only [dedupeAux]
    by_cases h1 : y ∈ seen1
    · rw [if_pos h1, if_pos (hy.mp h1)]
      exact ih (fun z hz => h z (List.mem_cons_of_mem _ hz))
    · rw [if_neg h1, if_neg (fun hh => h1 (hy.mpr hh))]
      congr 1
      apply ih
      intro z hz
      simp only [List.mem_cons]
      exact or_congr Iff.rfl (h z (List.mem_cons_of_mem _ hz))

theorem dedupeAux_filter {α : Type} [DecidableEq α] (p : α → Bool) :
    ∀ (l seen : List α),
      dedupeAux seen (l.filter p) = (dedupeAux seen l).filter p := by
  intro l
  induction l with
  | nil => intro seen; rfl
  | cons y ys ih =>
    intro seen
    by_cases hp : p y
    · rw [List.filter_cons_of_pos hp]
      simp only [dedupeAux]
      by_cases hseen : y ∈ seen
      · rw [if_pos hseen, if_pos hseen, ih seen]
      · rw [if_neg hseen, if_neg hseen]
        rw [List.filter_cons_of_pos hp]
        rw [ih (y :: seen)]
    · rw [List.filter_cons_of_neg (by simpa using hp)]
      simp only [dedupeAux]
      by_cases hseen : y ∈ seen
      · rw [if_pos hseen]
        exact ih seen
      · rw [if_neg hseen]
        rw [List.filter_cons_of_neg (by simpa using hp)]
        rw [← ih (y :: seen)]
        apply dedupeAux_congr
        intro z hz
        have hzp : p z = true := List.of_mem_filter hz
        have hzy : z ≠ y := fun hh => hp (hh ▸ hzp)
        simp [List.mem_cons, hzy]

theorem dedupe_filter {α : Type} [DecidableEq α] (p : α → Bool) (l : List α) :
    dedupe (l.filter p) = (dedupe l).filter p := dedupeAux_filter p l []

theorem mem_joinWith {sep : Char} :
    ∀ {L : List JStr} {c : Char},
      c ∈ joinWith sep L → c = sep ∨ ∃ t ∈ L, c ∈ t
  | [], c, h => by simp [joinWith] at h
  | [t], c, h => by
    simp only [joinWith] at h
    exact Or.inr ⟨t, List.mem_cons_self _ _, h⟩
  | t :: t' :: L', c, h => by
    simp only [joinWith] at h
    rcases List.mem_append.mp h with h | h
    · exact Or.inr ⟨t, List.mem_cons_self _ _, h⟩
    · rcases List.mem_cons.mp h with h | h
      · exact Or.inl h
      · rcases mem_joinWith h with h | ⟨u, hu, hc⟩
        · exact Or.inl h
        · exact Or.inr ⟨u, List.mem_cons_of_mem _ hu, hc⟩

theorem scopeTokens_cons_space (s : JStr) :
    scopeTokens (' ' :: s) = scopeTokens s := by
  unfold scopeTokens
  simp only [splitOnChar]
  rw [if_true]
  rw [List.filter_cons_of_neg (by simp)]

theorem scopeTokens_dropWhile {s : JStr}
    (h : ∀ c ∈ s, isJsWhitespace c = true → c = ' ') :
    scopeTokens (s.dropWhile isJsWhitespace) = scopeTokens s := by
  induction s with
  | nil => rfl
  | cons c rest ih =>
    by_cases hw : isJsWhitespace c
    · have hc : c = ' ' := h c (List.mem_cons_self _ _) hw
      subst hc
      rw [List.dropWhile_cons_of_pos hw]
      rw [ih (fun d hd => h d (List.mem_cons_of_mem _ hd))]
      exact (scopeTokens_cons_space rest).symm
    · rw [List.dropWhile_cons_of_neg hw]

theorem splitOnChar_append_sep_end (sep : Char) :
    ∀ s : JStr, splitOnChar sep (s ++ [sep]) = splitOnChar sep s ++ [[]]
  | [] => by simp [splitOnChar]
  | c :: rest => by
    simp only [List.cons_append, splitOnChar, List.append_eq]
    rw [splitOnChar_append_sep_end sep rest]
    by_cases hc : c = sep
    · rw [if_pos hc, if_pos hc]
      simp
    · rw [if_neg hc, if_neg hc]
      cases hr : splitOnChar sep rest with
      | nil => exact absurd hr (splitOnChar_ne_nil sep rest)
      | cons seg segs => simp

theorem scopeTokens_append_space (s : JStr) :
    scopeTokens (s ++ [' ']) = scopeTokens s := by
  unfold scopeTokens
  rw [splitOnChar_append_sep_end]
  rw [List.filter_append]
  simp

theorem scopeTokens_trimRight :
    ∀ (rl : JStr), (∀ c ∈ rl, isJsWhitespace c = true → c = ' ') →
      scopeTokens ((rl.dropWhile isJsWhitespace).reverse) =
        scopeTokens rl.reverse
  | [], _ => rfl
  | c :: rest, h => by
    by_cases hw : isJsWhitespace c
    · have hc : c = ' ' := h c (List.mem_cons_self _ _) hw
      subst hc
      rw [List.dropWhile_cons_of_pos hw]
      rw [scopeTokens_trimRight rest (fun d hd => h d (List.mem_cons_of_mem _ hd))]
      rw [List.reverse_cons]
      exact (scopeTokens_append_space rest.reverse).symm
    · rw [List.dropWhile_cons_of_neg hw]

theorem scopeTokens_jsTrim {s : JStr}
    (h : ∀ c ∈ s, isJsWhitespace c = true → c = ' ') :
    scopeTokens (jsTrim s) = scopeTokens s := by
  unfold jsTrim
  have h1 : ∀ c ∈ s.dropWhile isJsWhitespace, isJsWhitespace c = true → c = ' ' :=
    fun c hc => h c ((List.dropWhile_sublist _).mem hc)
  have h2 : ∀ c ∈ (s.dropWhile isJsWhitespace).reverse,
      isJsWhitespace c = true → c = ' ' := by
    intro c hc
    exact h1 c (List.mem_reverse.mp hc)
  rw [scopeTokens_trimRight _ h2]
  rw [List.reverse_reverse]
  exact scopeTokens_dropWhile h

theorem scopeTokens_getUniqueScopes (scopes : List JStr) :
    scopeTokens (getUniqueScopes scopes) = dedupe (mergedScopeTokens scopes) := by
  unfold getUniqueScopes mergedScopeTokens
  set mapped := (joinWith ',' (scopes.filter (fun s => s ≠ []))).map
    (fun c => if isJsWhitespace c then ',' else c) with hmapped
  set parts := splitOnChar ',' mapped with hparts
  have hmappedws : ∀ c ∈ mapped, isJsWhitespace c = true → c = ',' := by
    intro c hc hw
    rw [hmapped] at hc
    obtain ⟨a, -, ha⟩ := List.mem_map.mp hc
    by_cases haw : isJsWhitespace a
    · rw [if_pos haw] at ha
      exact ha.symm
    · rw [if_neg haw] at ha
      rw [ha] at haw
      exact absurd hw haw
  have hpartsws : ∀ t ∈ parts, ∀ c ∈ t, isJsWhitespace c = false := by
    intro t ht c hc
    obtain ⟨h1, h2⟩ := mem_splitOnChar ht c hc
    by_cases hw : isJsWhitespace c
    · exact absurd (hmappedws c h1 hw) h2
    · simpa using hw
  have hpartsnospace : ∀ t ∈ dedupe parts, ' ' ∉ t := by
    intro t ht hsp
    have hparts' : t ∈ parts := (mem_dedupeAux ht).1
    have := hpartsws t hparts' ' ' hsp
    simp [isJsWhitespace] at this
  have hdne : dedupe parts ≠ [] := by
    cases hp : parts with
    | nil => exact absurd (hparts.symm.trans hp) (splitOnChar_ne_nil ',' mapped)
    | cons seg segs => exact dedupe_ne_nil
  have hjws : ∀ c ∈ joinWith ' ' (dedupe parts),
      isJsWhitespace c = true → c = ' ' := by
    intro c hc hw
    rcases mem_joinWith hc with h | ⟨t, ht, hct⟩
    · exact h
    · have h1 : t ∈ parts := (mem_dedupeAux ht).1
      have h2 := hpartsws t h1 c hct
      rw [h2] at hw
      exact absurd hw (by simp)
  rw [scopeTokens_jsTrim hjws]
  unfold scopeTokens
  rw [splitOnChar_joinWith hpartsnospace hdne]
  exact (dedupe_filter _ parts).symm

/-- C7: `getUniqueScopes` merges the space/comma-delimited tokens of its
arguments, removes duplicates preserving first-occurrence order, and
joins with single spaces: `getUniqueScopes('a b', 'b,c') = 'a b c'`, and
for every input the output's token list is exactly the first-occurrence
dedup of the merged token list — in particular it has no duplicates. -/
theorem claim_C7_getUniqueScopes :
    getUniqueScopes [jstr "a b", jstr "b,c"] = jstr "a b c" ∧
    ∀ scopes : List JStr,
      (scopeTokens (getUniqueScopes scopes)).Nodup ∧
      scopeTokens (getUniqueScopes scopes) = dedupe (mergedScopeTokens scopes) := by
  refine ⟨by decide, fun scopes => ⟨?_, scopeTokens_getUniqueScopes scopes⟩⟩
  rw [scopeTokens_getUniqueScopes]
  exact dedupe_nodup _

theorem b64Index_b64Char : ∀ n, n < 64 → b64Index (b64Char n) = some n := by
  decide

theorem urlRound_b64Char :
    ∀ n, n < 64 → (urlEncChar (b64Char n)).map urlDecChar = some (b64Char n) := by
  decide

theorem urlEncChar_pad_map : (urlEncChar '=').map urlDecChar = none := rfl

theorem b64Char_ne_pad (n : Nat) : b64Char n ≠ '=' := by
  by_cases h : n < b64Alphabet.length
  · intro hc
    have hmem : b64Char n ∈ b64Alphabet := by
      unfold b64Char
      rw [List.getD_eq_getElem _ _ h]
      exact List.getElem_mem _
    rw [hc] at hmem
    exact absurd hmem (by decide)
  · unfold b64Char
    rw [List.getD_eq_default _ _ (by omega)]
    decide

theorem mem_encNoPad : ∀ {bs : List Nat} {c : Char},
    c ∈ encNoPad bs → ∃ n, c = b64Char n
  | [], c, h => by simp [encNoPad] at h
  | [a], c, h => by
    simp only [encNoPad, List.mem_cons, List.not_mem_nil, or_false] at h
    rcases h with h | h
    exacts [⟨_, h⟩, ⟨_, h⟩]
  | [a, b], c, h => by
    simp only [encNoPad, List.mem_cons, List.not_mem_nil, or_false] at h
    rcases h with h | h | h
    exacts [⟨_, h⟩, ⟨_, h⟩, ⟨_, h⟩]
  | a :: b :: d :: rest, c, h => by
    simp only [encNoPad, List.mem_cons] at h
    rcases h with h | h | h | h | h
    exacts [⟨_, h⟩, ⟨_, h⟩, ⟨_, h⟩, ⟨_, h⟩, mem_encNoPad h]

theorem encNoPad_no_pad (bs : List Nat) : '=' ∉ encNoPad bs := by
  intro h
  obtain ⟨n, hn⟩ := mem_encNoPad h
  exact b64Char_ne_pad n hn.symm

theorem encNoPad_length_mod : ∀ bs : List Nat, (encNoPad bs).length % 4 ≠ 1
  | [] => by simp [encNoPad]
  | [a] => by simp [encNoPad]
  | [a, b] => by simp [encNoPad]
  | a :: b :: c :: rest => by
    have ih := encNoPad_length_mod rest
    simp only [encNoPad, List.length_cons]
    omega

theorem stripPadding_no_pad {l : JStr} (h : '=' ∉ l) : stripPadding l = l := by
  unfold stripPadding
  split_ifs with hlen
  · split
    · rename_i r heq
      exact absurd (by
        rw [← List.mem_reverse, heq]
        exact List.mem_cons_self _ _) h
    · rename_i r heq
      exact absurd (by
        rw [← List.mem_reverse, heq]
        exact List.mem_cons_self _ _) h
    · rfl
  · rfl

theorem urlCodec_btoa : ∀ (bs : List Nat), (∀ b ∈ bs, b < 256) →
    (urlEncodeB64 (btoaBytes bs)).map urlDecChar = encNoPad bs
  | [], _ => rfl
  | [a], h => by
    have ha : a < 256 := h a (by simp)
    have e1 := urlRound_b64Char (a / 4) (by omega)
    have e2 := urlRound_b64Char (a % 4 * 16) (by omega)
    unfold urlEncodeB64
    rw [List.map_filterMap]
    show List.filterMap _ [b64Char (a / 4), b64Char (a % 4 * 16), '=', '='] = _
    simp only [List.filterMap_cons, List.filterMap_nil, e1, e2, urlEncChar_pad_map]
    rfl
  | [a, b], h => by
    have ha : a < 256 := h a (by simp)
    have hb : b < 256 := h b (by simp)
    have e1 := urlRound_b64Char (a / 4) (by omega)
    have e2 := urlRound_b64Char (a % 4 * 16 + b / 16) (by omega)
    have e3 := urlRound_b64Char (b % 16 * 4) (by omega)
    unfold urlEncodeB64
    rw [List.map_filterMap]
    show List.filterMap _
      [b64Char (a / 4), b64Char (a % 4 * 16 + b / 16), b64Char (b % 16 * 4), '='] = _
    simp only [List.filterMap_cons, List.filterMap_nil, e1, e2, e3, urlEncChar_pad_map]
    rfl
  | a :: b :: c :: rest, h => by
    have ha : a < 256 := h a (by simp)
    have hb : b < 256 := h b (by simp)
    have hc : c < 256 := h c (by simp)
    have e1 := urlRound_b64Char (a / 4) (by omega)
    have e2 := urlRound_b64Char (a % 4 * 16 + b / 16) (by omega)
    have e3 := urlRound_b64Char (b % 16 * 4 + c / 64) (by omega)
    have e4 := urlRound_b64Char (c % 64) (by omega)
    have ih := urlCodec_btoa rest (fun x hx => h x (by simp [hx]))
    unfold urlEncodeB64 at ih ⊢
    rw [List.map_filterMap] at ih ⊢
    show List.filterMap _
      (b64Char (a / 4) :: b64Char (a % 4 * 16 + b / 16) ::
        b64Char (b % 16 * 4 + c / 64) :: b64Char (c % 64) :: btoaBytes rest) = _
    simp only [List.filterMap_cons, e1, e2, e3, e4]
    rw [ih]
    rfl

theorem atobChars_encNoPad : ∀ (bs : List Nat), (∀ b ∈ bs, b < 256) →
    atobChars (encNoPad bs) = some bs
  | [], _ => rfl
  | [a], h => by
    have ha : a < 256 := h a (by simp)
    show atobChars [b64Char (a / 4), b64Char (a % 4 * 16)] = some [a]
    simp only [atobChars]
    rw [b64Index_b64Char _ (by omega), b64Index_b64Char _ (by omega)]
    simp only [Option.bind_eq_bind, Option.some_bind, Option.pure_def,
      Option.some_inj, List.cons.injEq, and_true]
    omega
  | [a, b], h => by
    have ha : a < 256 := h a (by simp)
    have hb : b < 256 := h b (by simp)
    show atobChars [b64Char (a / 4), b64Char (a % 4 * 16 + b / 16),
      b64Char (b % 16 * 4)] = some [a, b]
    simp only [atobChars]
    rw [b64Index_b64Char _ (by omega), b64Index_b64Char _ (by omega),
        b64Index_b64Char _ (by omega)]
    simp only [Option.bind_eq_bind, Option.some_bind, Option.pure_def,
      Option.some_inj, List.cons.injEq, and_true]
    omega
  | a :: b :: c :: rest, h => by
    have ha : a < 256 := h a (by simp)
    have hb : b < 256 := h b (by simp)
    have hc : c < 256 := h c (by simp)
    have ih := atobChars_encNoPad rest (fun x hx => h x (by simp [hx]))
    show atobChars (b64Char (a / 4) :: b64Char (a % 4 * 16 + b / 16) ::
      b64Char (b % 16 * 4 + c / 64) :: b64Char (c % 64) :: encNoPad rest) =
      some (a :: b :: c :: rest)
    simp only [atobChars]
    rw [b64Index_b64Char _ (by omega), b64Index_b64Char _ (by omega),
        b64Index_b64Char _ (by omega), b64Index_b64Char _ (by omega), ih]
    simp only [Option.bind_eq_bind, Option.some_bind, Option.pure_def,
      Option.some_inj, List.cons.injEq, and_true]
    omega

theorem atob_encNoPad {bs : List Nat} (h : ∀ b ∈ bs, b < 256) :
    atob (encNoPad bs) = some bs := by
  unfold atob
  rw [stripPadding_no_pad (encNoPad_no_pad bs)]
  rw [if_neg (encNoPad_length_mod bs), if_neg (encNoPad_no_pad bs)]
  exact atobChars_encNoPad bs h

theorem hexVal_hexDigitChar : ∀ n, n < 16 → hexVal (hexDigitChar n) = some n := by
  decide

theorem readEscape_hex (b : Nat) (hb : b < 256) (rest : JStr) :
    readEscape ('%' :: hexDigitChar (b / 16) :: hexDigitChar (b % 16) :: rest) =
      some (b, rest) := by
  simp only [readEscape]
  rw [hexVal_hexDigitChar _ (by omega), hexVal_hexDigitChar _ (by omega)]
  simp only [Option.bind_eq_bind, Option.some_bind, Option.pure_def,
    Option.some_inj, Prod.mk.injEq, and_true]
  omega

theorem char_toNat_valid (c : Char) :
    c.toNat < 0xD800 ∨ (0xDFFF < c.toNat ∧ c.toNat < 0x110000) := by
  rcases c.valid with h | ⟨h1, h2⟩
  · exact Or.inl (UInt32.toNat_lt_of_lt (by decide) h)
  · exact Or.inr ⟨UInt32.lt_toNat_of_lt (by decide) h1,
      UInt32.toNat_lt_of_lt (by decide) h2⟩

theorem escapeBytes_cons (b : Nat) (bs : List Nat) :
    escapeBytes (b :: bs) = '%' :: (toHex2 b ++ escapeBytes bs) := by
  simp [escapeBytes]

theorem escapeBytes_nil : escapeBytes [] = [] := rfl

theorem decodeEscapedUnit_eq {s : JStr} {b1 : Nat} {r1 : JStr}
    (h : readEscape s = some (b1, r1)) :
    decodeEscapedUnit s =
      if b1 < 0x80 then some (Char.ofNat b1, r1)
      else if 0xC2 ≤ b1 ∧ b1 ≤ 0xDF then decodeCont2 b1 r1
      else if 0xE0 ≤ b1 ∧ b1 ≤ 0xEF then decodeCont3 b1 r1
      else if 0xF0 ≤ b1 ∧ b1 ≤ 0xF4 then decodeCont4 b1 r1
      else none := by
  unfold decodeEscapedUnit
  rw [h]
  rfl

theorem decodeCont2_eq {b2 : Nat} {r1 r2 : JStr} (b1 : Nat)
    (h : readEscape r1 = some (b2, r2)) :
    decodeCont2 b1 r1 =
      if isCont b2 then some (Char.ofNat ((b1 - 0xC0) * 64 + (b2 - 0x80)), r2)
      else none := by
  unfold decodeCont2
  rw [h]
  rfl

theorem decodeCont3_eq {b2 b3 : Nat} {r1 r2 r3 : JStr} (b1 : Nat)
    (h2 : readEscape r1 = some (b2, r2)) (h3 : readEscape r2 = some (b3, r3)) :
    decodeCont3 b1 r1 =
      if second3Ok b1 b2 && isCont b3 then
        some (Char.ofNat ((b1 - 0xE0) * 4096 + (b2 - 0x80) * 64 + (b3 - 0x80)), r3)
      else none := by
  unfold decodeCont3
  rw [h2]
  show (readEscape r2).bind _ = _
  rw [h3]
  rfl

theorem decodeCont4_eq {b2 b3 b4 : Nat} {r1 r2 r3 r4 : JStr} (b1 : Nat)
    (h2 : readEscape r1 = some (b2, r2)) (h3 : readEscape r2 = some (b3, r3))
    (h4 : readEscape r3 = some (b4, r4)) :
    decodeCont4 b1 r1 =
      if second4Ok b1 b2 && isCont b3 && isCont b4 then
        some (Char.ofNat ((b1 - 0xF0) * 262144 + (b2 - 0x80) * 4096 +
          (b3 - 0x80) * 64 + (b4 - 0x80)), r4)
      else none := by
  unfold decodeCont4
  rw [h2]
  show (readEscape r2).bind _ = _
  rw [h3]
  show (readEscape r3).bind _ = _
  rw [h4]
  rfl

theorem decodeEscapedUnit_utf8 (c : Char) (E : JStr) :
    decodeEscapedUnit (escapeBytes (utf8EncodeChar c) ++ E) = some (c, E) := by
  have hval := char_toNat_valid c
  have hlt : c.toNat < 0x110000 := by rcases hval with h | ⟨-, h⟩ <;> omega
  unfold utf8EncodeChar
  by_cases h1 : c.toNat < 0x80
  · rw [if_pos h1]
    simp only [escapeBytes_cons, escapeBytes_nil, toHex2, List.cons_append,
      List.nil_append, List.append_nil]
    rw [decodeEscapedUnit_eq (readEscape_hex c.toNat (by omega) E)]
    rw [if_pos h1, Char.ofNat_toNat]
  · rw [if_neg h1]
    by_cases h2 : c.toNat < 0x800
    · rw [if_pos h2]
      simp only [escapeBytes_cons, escapeBytes_nil, toHex2, List.cons_append,
        List.nil_append, List.append_nil]
      rw [decodeEscapedUnit_eq (readEscape_hex (0xC0 + c.toNat / 64) (by omega) _)]
      rw [if_neg (by omega), if_pos (by omega)]
      rw [decodeCont2_eq _ (readEscape_hex (0x80 + c.toNat % 64) (by omega) E)]
      rw [if_pos (by simp only [isCont, Bool.and_eq_true, decide_eq_true_eq]; omega)]
      have harg : (0xC0 + c.toNat / 64 - 0xC0) * 64 + (0x80 + c.toNat % 64 - 0x80)
          = c.toNat := by omega
      rw [harg, Char.ofNat_toNat]
    · rw [if_neg h2]
      by_cases h3 : c.toNat < 0x10000
      · rw [if_pos h3]
        simp only [escapeBytes_cons, escapeBytes_nil, toHex2, List.cons_append,
          List.nil_append, List.append_nil]
        rw [decodeEscapedUnit_eq
          (readEscape_hex (0xE0 + c.toNat / 4096) (by omega) _)]
        rw [if_neg (by omega), if_neg (by omega), if_pos (by omega)]
        rw [decodeCont3_eq _
          (readEscape_hex (0x80 + c.toNat / 64 % 64) (by omega) _)
          (readEscape_hex (0x80 + c.toNat % 64) (by omega) E)]
        have hcond : (second3Ok (0xE0 + c.toNat / 4096) (0x80 + c.toNat / 64 % 64)
            && isCont (0x80 + c.toNat % 64)) = true := by
          have hc2 : isCont (0x80 + c.toNat % 64) = true := by
            simp only [isCont, Bool.and_eq_true, decide_eq_true_eq]
            omega
          rw [hc2, Bool.and_true]
          unfold second3Ok
          split_ifs with hE0 hED
          · simp only [Bool.and_eq_true, decide_eq_true_eq]
            omega
          · simp only [Bool.and_eq_true, decide_eq_true_eq]
            rcases hval with hv | ⟨hv1, hv2⟩ <;> omega
          · simp only [isCont, Bool.and_eq_true, decide_eq_true_eq]
            omega
        rw [if_pos hcond]
        have harg : (0xE0 + c.toNat / 4096 - 0xE0) * 4096 +
            (0x80 + c.toNat / 64 % 64 - 0x80) * 64 + (0x80 + c.toNat % 64 - 0x80)
            = c.toNat := by omega
        rw [harg, Char.ofNat_toNat]
      · rw [if_neg h3]
        simp only [escapeBytes_cons, escapeBytes_nil, toHex2, List.cons_append,
          List.nil_append, List.append_nil]
        rw [decodeEscapedUnit_eq
          (readEscape_hex (0xF0 + c.toNat / 262144) (by omega) _)]
        rw [if_neg (by omega), if_neg (by omega), if_neg (by omega),
          if_pos (by omega)]
        rw [decodeCont4_eq _
          (readEscape_hex (0x80 + c.toNat / 4096 % 64) (by omega) _)
          (readEscape_hex (0x80 + c.toNat / 64 % 64) (by omega) _)
          (readEscape_hex (0x80 + c.toNat % 64) (by omega) E)]
        have hcond : (second4Ok (0xF0 + c.toNat / 262144)
            (0x80 + c.toNat / 4096 % 64) && isCont (0x80 + c.toNat / 64 % 64)
            && isCont (0x80 + c.toNat % 64)) = true := by
          have hc3 : isCont (0x80 + c.toNat / 64 % 64) = true := by
            simp only [isCont, Bool.and_eq_true, decide_eq_true_eq]
            omega
          have hc4 : isCont (0x80 + c.toNat % 64) = true := by
            simp only [isCont, Bool.and_eq_true, decide_eq_true_eq]
            omega
          rw [hc3, hc4, Bool.and_true, Bool.and_true]
          unfold second4Ok
          split_ifs with hF0 hF4
          · simp only [Bool.and_eq_true, decide_eq_true_eq]
            omega
          · simp only [Bool.and_eq_true, decide_eq_true_eq]
            omega
          · simp only [isCont, Bool.and_eq_true, decide_eq_true_eq]
            omega
        rw [if_pos hcond]
        have harg : (0xF0 + c.toNat / 262144 - 0xF0) * 262144 +
            (0x80 + c.toNat / 4096 % 64 - 0x80) * 4096 +
            (0x80 + c.toNat / 64 % 64 - 0x80) * 64 + (0x80 + c.toNat % 64 - 0x80)
            = c.toNat := by omega
        rw [harg, Char.ofNat_toNat]

theorem decodeURICompAux_cons_pct (fuel : Nat) (rest : JStr) :
    decodeURICompAux (fuel + 1) ('%' :: rest) =
      match decodeEscapedUnit ('%' :: rest) with
      | some (c, r) => (fun t => c :: t) <$> decodeURICompAux fuel r
      | none => none := rfl

theorem decodeURICompAux_cons (fuel : Nat) (c : Char) (rest : JStr)
    (hc : c ≠ '%') :
    decodeURICompAux (fuel + 1) (c :: rest) =
      (fun t => c :: t) <$> decodeURICompAux fuel rest := by
  rw [decodeURICompAux.eq_def]
  split
  · rename_i heq
    exact absurd heq.symm (by simp)
  · rename_i heq
    omega
  · rename_i rest' hf hr
    rw [List.cons.injEq] at hr
    exact absurd hr.1 hc
  · rename_i c' rest' hf hr
    rw [List.cons.injEq] at hr
    rw [hr.1, hr.2, (Nat.add_right_cancel hf : fuel = _)]

theorem decodeURICompAux_fuel (s : JStr) (f : Nat) (hf : s.length ≤ f) :
    decodeURICompAux f s = decodeURIComponent s := by
  unfold decodeURIComponent
  match s with
  | [] => cases f <;> rfl
  | c :: rest =>
    simp only [List.length_cons] at hf ⊢
    obtain ⟨f', rfl⟩ : ∃ f', f = f' + 1 := ⟨f - 1, by omega⟩
    by_cases hc : c = '%'
    · subst hc
      rw [decodeURICompAux_cons_pct f' rest, decodeURICompAux_cons_pct rest.length rest]
      cases hd : decodeEscapedUnit ('%' :: rest) with
      | none => rfl
      | some pr =>
        obtain ⟨ch, r⟩ := pr
        dsimp only
        have hr : r.length < rest.length + 1 := by
          have := decodeEscapedUnit_shrinks hd
          simpa using this
        rw [decodeURICompAux_fuel r f' (by omega),
            decodeURICompAux_fuel r rest.length (by omega)]
    · rw [decodeURICompAux_cons f' c rest hc,
          decodeURICompAux_cons rest.length c rest hc]
      rw [decodeURICompAux_fuel rest f' (by omega),
          decodeURICompAux_fuel rest rest.length (Nat.le_refl _)]
termination_by s.length
decreasing_by
  all_goals simp only [List.length_cons]
  all_goals omega

theorem decodeURIComponent_cons_escape {rest : JStr} {c : Char} {E : JStr}
    (h : decodeEscapedUnit ('%' :: rest) = some (c, E)) :
    decodeURIComponent ('%' :: rest) =
      (fun t => c :: t) <$> decodeURIComponent E := by
  unfold decodeURIComponent
  simp only [List.length_cons]
  rw [decodeURICompAux_cons_pct, h]
  dsimp only
  have hE : E.length < rest.length + 1 := by
    have := decodeEscapedUnit_shrinks h
    simpa using this
  rw [decodeURICompAux_fuel E rest.length (by omega)]
  rfl

theorem decodeURIComponent_escape_utf8 : ∀ (s : JStr),
    decodeURIComponent (escapeBytes (utf8Encode s)) = some s
  | [] => rfl
  | c :: s' => by
    have h1 : escapeBytes (utf8Encode (c :: s')) =
        escapeBytes (utf8EncodeChar c) ++ escapeBytes (utf8Encode s') := by
      simp [utf8Encode, escapeBytes, List.flatMap_append]
    rw [h1]
    have h2 := decodeEscapedUnit_utf8 c (escapeBytes (utf8Encode s'))
    obtain ⟨tail, htail⟩ : ∃ tail,
        escapeBytes (utf8EncodeChar c) ++ escapeBytes (utf8Encode s') =
          '%' :: tail := by
      simp only [utf8EncodeChar]
      split_ifs <;> exact ⟨_, by rw [escapeBytes_cons, List.cons_append]⟩
    rw [htail]
    rw [htail] at h2
    rw [decodeURIComponent_cons_escape h2]
    rw [decodeURIComponent_escape_utf8 s']
    rfl

theorem utf8EncodeChar_lt (c : Char) : ∀ b ∈ utf8EncodeChar c, b < 256 := by
  have hval := char_toNat_valid c
  have hlt : c.toNat < 0x110000 := by rcases hval with h | ⟨-, h⟩ <;> omega
  intro b hb
  simp only [utf8EncodeChar] at hb
  split_ifs at hb with h1 h2 h3
  · simp only [List.mem_cons, List.not_mem_nil, or_false] at hb
    omega
  · simp only [List.mem_cons, List.not_mem_nil, or_false] at hb
    rcases hb with hb | hb <;> omega
  · simp only [List.mem_cons, List.not_mem_nil, or_false] at hb
    rcases hb with hb | hb | hb <;> omega
  · simp only [List.mem_cons, List.not_mem_nil, or_false] at hb
    rcases hb with hb | hb | hb | hb <;> omega

theorem utf8Encode_lt (s : JStr) : ∀ b ∈ utf8Encode s, b < 256 := by
  intro b hb
  unfold utf8Encode at hb
  obtain ⟨c, -, hbc⟩ := List.mem_flatMap.mp hb
  exact utf8EncodeChar_lt c b hbc

theorem map_mod256 {bs : List Nat} (h : ∀ b ∈ bs, b < 256) :
    bs.map (fun b => b % 256) = bs := by
  induction bs with
  | nil => rfl
  | cons b bs ih =>
    rw [List.map_cons, Nat.mod_eq_of_lt (h b (List.mem_cons_self _ _)),
        ih (fun x hx => h x (List.mem_cons_of_mem _ hx))]

/-- C2 counterexample: the byte array `[0x80]` is not valid UTF-8, so
`urlDecodeB64 (bufferToBase64UrlEncoded [0x80])` throws a `URIError`
(modelled `none`) instead of recovering the input: the round trip does
not hold for every byte array. -/
theorem claim_C2_counterexample :
    urlDecodeB64 (bufferToBase64UrlEncoded [128]) = none := by decide

/-- C2 (amended): for every byte array that is the UTF-8 encoding of a
string, decoding the base64url encoding recovers exactly that string:
`urlDecodeB64 (bufferToBase64UrlEncoded (utf8Encode s)) = s`, including
strings with multi-byte UTF-8 code points.  (For byte arrays that are not
valid UTF-8, such as `[0x80]`, the decode throws.) -/
theorem claim_C2_base64url_roundtrip (s : JStr) :
    urlDecodeB64 (bufferToBase64UrlEncoded (utf8Encode s)) = some s := by
  unfold bufferToBase64UrlEncoded urlDecodeB64 decodeB64
  rw [map_mod256 (utf8Encode_lt s)]
  rw [urlCodec_btoa _ (utf8Encode_lt s)]
  rw [atob_encNoPad (utf8Encode_lt s)]
  show decodeURIComponent (escapeBytes (utf8Encode s)) = some s
  exact decodeURIComponent_escape_utf8 s

/-- C8 witness: a concrete 43-byte draw yields a 43-character string over
the alphabet. -/
theorem claim_C8_witness :
    (createRandomString (List.range 43)).length = 43 ∧
    ∀ c ∈ createRandomString (List.range 43), c ∈ charset :=
  claim_C8_createRandomString (List.range 43) (by decide)

/-- C9 witness: a message from a wrong origin leaves a fresh iframe
attempt unchanged. -/
theorem claim_C9_witness :
    iframeMessageStep (jstr "https://auth") iframeStart
      ⟨jstr "https://evil", some ⟨jstr "authorization_response",
        ⟨none, none, some (jstr "c"), none⟩⟩⟩ = iframeStart :=
  claim_C9_iframe_ignores_nonmatching (jstr "https://auth") iframeStart
    ⟨jstr "https://evil", some ⟨jstr "authorization_response",
      ⟨none, none, some (jstr "c"), none⟩⟩⟩ (Or.inl (by decide))
